import Mathlib

/-!
# Verification of `make_slow_change_stimuli.py`

A shallow embedding of the slow-change stimulus generator
(`src/Slow Change Code/make_slow_change_stimuli.py`) and proofs about it.

Modelling conventions:
* Python floats are modelled as exact rationals (`ℚ`); the script's arithmetic
  on pixel weights is small and the spec's claims are stated "modulo rounding".
* numpy `uint8` arrays are modelled by `NpArr`: an explicit 3-dimensional shape
  together with a value function; `astype(numpy.uint8)` is C truncation toward
  zero followed by wrap-around modulo 256.
* Elementwise numpy arithmetic follows numpy's broadcasting rule: two axes are
  compatible when they are equal or one of them is 1; an incompatible pair of
  shapes raises (modelled by `Option.none`).
* Python `int()` on a nonnegative float is truncation toward zero (`pyTrunc`).
-/

/-- Python `int()` applied to a real value: truncation toward zero. -/
def pyTrunc (q : ℚ) : ℤ :=
  if 0 ≤ q then ⌊q⌋ else ⌈q⌉

/-- numpy `astype(numpy.uint8)` on one scalar: truncate toward zero, wrap mod 256. -/
def toU8 (q : ℚ) : ℕ :=
  (pyTrunc q).toNat % 256

/-- A numpy array of shape `(s0, s1, s2)` holding rational scalars
(the script's images are height × width × 3 RGB rasters). -/
structure NpArr where
  s0 : ℕ
  s1 : ℕ
  s2 : ℕ
  val : ℕ → ℕ → ℕ → ℚ

/-- The shape triple of an array, as numpy's `.shape`. -/
def NpArr.shape (a : NpArr) : ℕ × ℕ × ℕ :=
  (a.s0, a.s1, a.s2)

/-- numpy broadcast compatibility of one axis pair: equal, or one side is 1. -/
def bdim (m n : ℕ) : Bool :=
  m == n || m == 1 || n == 1

/-- numpy broadcast compatibility of two 3-d shapes. -/
def broadcastable (a b : NpArr) : Bool :=
  bdim a.s0 b.s0 && bdim a.s1 b.s1 && bdim a.s2 b.s2

/-- Index into an axis under broadcasting: a length-1 axis is read at 0. -/
def bidx (m i : ℕ) : ℕ :=
  if m = 1 then 0 else i

/-- The numpy expression `a * wa + b * wb` (elementwise, with broadcasting);
`none` models the `ValueError` numpy raises on incompatible shapes.
This is the arithmetic core of both morph expressions in the script
(lines 110 and 148). -/
def weightedSum (a b : NpArr) (wa wb : ℚ) : Option NpArr :=
  if broadcastable a b then
    some { s0 := max a.s0 b.s0
           s1 := max a.s1 b.s1
           s2 := max a.s2 b.s2
           val := fun i j c =>
             a.val (bidx a.s0 i) (bidx a.s1 j) (bidx a.s2 c) * wa +
             b.val (bidx b.s0 i) (bidx b.s1 j) (bidx b.s2 c) * wb }
  else none

/-- `astype(numpy.uint8)` applied to a whole array. -/
def astypeU8 (a : NpArr) : NpArr :=
  { a with val := fun i j c => (toU8 (a.val i j c) : ℚ) }

/-- The Image Blend Primitive: `A*(1-w) + B*w` then truncation back to uint8.
`w` is the fraction of `b` in the result. -/
def blend (a b : NpArr) (w : ℚ) : Option NpArr :=
  (weightedSum a b (1 - w) w).map astypeU8

/-- Extensional equality of two arrays: same shape and same scalars at every
in-range index. -/
def NpArr.EqOn (x y : NpArr) : Prop :=
  x.shape = y.shape ∧
  ∀ i j c, i < x.s0 → j < x.s1 → c < x.s2 → x.val i j c = y.val i j c

/-- The array holds genuine 8-bit data: every in-range scalar is a natural
number below 256 (true of any array obtained from a decoded image). -/
def IntImg (a : NpArr) : Prop :=
  ∀ i j c, i < a.s0 → j < a.s1 → c < a.s2 →
    ∃ m : ℕ, m < 256 ∧ a.val i j c = (m : ℚ)

/-- `width + 1 if width % 2 != 0 else width` (script lines 163-164): round a
dimension up to the nearest even value. -/
def evenDim (d : ℕ) : ℕ :=
  if d % 2 ≠ 0 then d + 1 else d

/-- The pre-encoder resize (script line 165): both raster dimensions are rounded
up to even values; pixel content is resampled (nearest-neighbour index map here;
only the dimensions are relevant downstream). -/
def resizeEven (img : NpArr) : NpArr :=
  { s0 := evenDim img.s0
    s1 := evenDim img.s1
    s2 := img.s2
    val := fun i j c => img.val (i * img.s0 / evenDim img.s0) (j * img.s1 / evenDim img.s1) c }

/-! ## Schedule Planner (script lines 117-122) -/

/-- `quick_change_time_section_proportion = 0.75` (script line 33). -/
def quick_change_time_section_proportion : ℚ := 3 / 4

/-- `new_change_moment_prop` (script line 120): the sampled onset proportion for
quick change `i` of `n`, with `r` the value returned by `numpy.random.rand()`. -/
def new_change_moment_prop (n i : ℕ) (r : ℚ) : ℚ :=
  (i : ℚ) / n + (1 / n) * (1 - quick_change_time_section_proportion) / 2 +
    (1 / n) * quick_change_time_section_proportion * r

/-- `new_change_moment_frame` (script line 121): the onset proportion converted
to a frame index by Python `int(prop * (number_of_morph_steps + 1))`. -/
def new_change_moment_frame (n i : ℕ) (r : ℚ) (ntot : ℕ) : ℤ :=
  pyTrunc (new_change_moment_prop n i r * ((ntot : ℚ) + 1))

/-- `change_step = 1 / (quick_change_length_frames + 1)` (script line 35),
parameterised by the window length `w`. -/
def change_step (w : ℕ) : ℚ := 1 / ((w : ℚ) + 1)

/-! ## Frame Sequence Synthesizer (script lines 98-158)

The script tracks, per output frame, a temp-directory *filename* built from
feature-value tokens, substituting tokens as quick changes pass and rewriting
a token to `avg` while a change is in transition; it then opens that file.
We model a filename by its list of feature tokens (`Tok`), and the temp
directory by a `Store` mapping (morph step, token list) to the image saved
under that name, if any. -/

/-- One feature token in a temp filename: a concrete feature value
(`false` = pre-change value, `true` = post-change value) or the literal
`avg` written for in-transition frames (script line 152). -/
inductive Tok where
  | val (b : Bool)
  | avg
deriving DecidableEq

/-- The temp directory: what image (if any) is saved under the filename made of
a morph step and a token list. -/
def Store := ℕ × List Tok → Option NpArr

/-- Decode a token list into a feature-value vector; fails on `avg` tokens
(no still image backs an `avg` name unless step 3 has saved one). -/
def toksVec : List Tok → Option (List Bool)
  | [] => some []
  | Tok.val b :: ts => (toksVec ts).map (b :: ·)
  | Tok.avg :: _ => none

/-- The slow colour morph saved in step 2 (script lines 108-115): for morph
step `k` of `ntot` and feature vector `v`, the weighted average
`A*(ntot-k)/ntot + B*k/ntot` of the start-colour and end-colour stills,
truncated back to uint8.  `stills b v` is the component image with colour
`b` (`false` = start colour) and feature vector `v`. -/
def tempMorph (stills : Bool → List Bool → NpArr) (ntot k : ℕ) (v : List Bool) :
    Option NpArr :=
  (weightedSum (stills false v) (stills true v)
    (((ntot : ℚ) - k) / ntot) ((k : ℚ) / ntot)).map astypeU8

/-- `count = quick_change_frames[change_idx] + (quick_change_length_frames / 2)
- curr_frame_index` (script line 150); Python `/` is exact division. -/
def quickCount (o : ℤ) (w : ℕ) (k : ℕ) : ℚ :=
  (o : ℚ) + (w : ℚ) / 2 - (k : ℚ)

/-- The in-transition weighted average (script line 148):
`A*(change_step*count) + B*(1 - change_step*count)`, truncated to uint8. -/
def quickBlend (a b : NpArr) (o : ℤ) (w k : ℕ) : Option NpArr :=
  (weightedSum a b (change_step w * quickCount o w k)
    (1 - change_step w * quickCount o w k)).map astypeU8

/-- Step-3 selection state for one output frame: the temp directory contents
and the token list of `this_filename` built so far. -/
structure SelSt where
  store : Store
  toks : List Tok

/-- Saving an image to the temp directory under a given name. -/
def updStore (s : Store) (key : ℕ × List Tok) (img : NpArr) : Store :=
  fun kt => if kt = key then some img else s kt

/-- Initial temp-directory contents after step 2: a colour morph exists for
every fully-valued token list at every morph step `k ≤ ntot`; nothing exists
under a name containing `avg`. -/
def initStore (stills : Bool → List Bool → NpArr) (ntot : ℕ) : Store :=
  fun kt =>
    match toksVec kt.2 with
    | some v => if kt.1 ≤ ntot then tempMorph stills ntot kt.1 v else none
    | none => none

/-- Processing of one quick change `j` with onset frame `o` at output frame `k`
(script lines 133-158): if `k` is inside the transition window, open the
current file and its `j`-swapped counterpart (missing file = abort, `none`),
save their weighted average under the `avg` name and select it; if the change
has passed, swap token `j`; otherwise leave the state unchanged. -/
def applyChange (w k : ℕ) (o : ℤ) (j : ℕ) (st : SelSt) : Option SelSt :=
  if (k : ℤ) ≥ o - (w : ℤ) / 2 ∧ (k : ℤ) < o + (w : ℤ) / 2 then
    match st.store (k, st.toks), st.store (k, st.toks.set j (Tok.val true)) with
    | some imgA, some imgB =>
      match quickBlend imgA imgB o w k with
      | some avgImg =>
        some ⟨updStore st.store (k, st.toks.set j Tok.avg) avgImg,
              st.toks.set j Tok.avg⟩
      | none => none
    | _, _ => none
  else if (k : ℤ) ≥ o + (w : ℤ) / 2 then
    some ⟨st.store, st.toks.set j (Tok.val true)⟩
  else
    some st

/-- Fold the quick changes (in their shuffled order, which is also their
temporal order since window `j` lies in the `j`-th time section) over the
selection state for output frame `k`. -/
def selectPath (w k : ℕ) (onsets : List ℤ) (st : SelSt) : Option SelSt :=
  onsets.enum.foldlM (fun s p => applyChange w k p.2 p.1 s) st

/-- The synthesized raster for output frame `k` (before the pre-encoder
resize): run the selection fold starting from the all-pre-change token list,
then open the selected file; `none` models a `FileNotFoundError` aborting the
scene. -/
def synthFrame (stills : Bool → List Bool → NpArr) (n ntot w : ℕ)
    (onsets : List ℤ) (k : ℕ) : Option NpArr :=
  match selectPath w k onsets ⟨initStore stills ntot, List.replicate n (Tok.val false)⟩ with
  | some st => st.store (k, st.toks)
  | none => none

/-- The full synthesized sequence: frames 0 through `ntot` inclusive
(script line 124: `range(number_of_morph_steps+1)`). -/
def synthSeq (stills : Bool → List Bool → NpArr) (n ntot w : ℕ)
    (onsets : List ℤ) : List (Option NpArr) :=
  (List.range (ntot + 1)).map (synthFrame stills n ntot w onsets)

/-! ## Injected randomness (script lines 68, 80, 120)

The script draws ambient randomness three ways: `numpy.random.shuffle` of the
two colour states (the morph direction), `numpy.random.shuffle` of the list of
quick-change pairs (the change order; for two features a single swap bit), and
one `numpy.random.rand()` per quick change.  We model the whole stream as an
injected record, so a run is a deterministic function of it. -/

/-- The random stream consumed by one scene with two quick changes. -/
structure RandSrc where
  colorFlip : Bool
  featSwap : Bool
  r0 : ℚ
  r1 : ℚ
deriving DecidableEq

/-- Apply the colour-direction shuffle and the feature-order shuffle to a
scene's component-image library (`stills0` is indexed by filename-order colour
and the two filename-order feature values): the synthesizer then sees stills
indexed by morph-direction colour and change-order feature vector. -/
def planStills (stills0 : Bool → List Bool → NpArr) (r : RandSrc) :
    Bool → List Bool → NpArr :=
  fun b v =>
    stills0 (xor b r.colorFlip)
      (if r.featSwap then
        match v with
        | [x, y] => [y, x]
        | u => u
      else v)

/-- The onset frames of the two quick changes of the C9 scenario
(`total_frames = 16`), drawn from the injected stream. -/
def runOnsets (r : RandSrc) : List ℤ :=
  [new_change_moment_frame 2 0 r.r0 16, new_change_moment_frame 2 1 r.r1 16]

/-- One emitted frame of the C9 scenario (2 features, `total_frames = 16`,
`feature_change_window_frames = 4`): synthesize, then apply the pre-encoder
even-dimension resize. -/
def runFrame (stills0 : Bool → List Bool → NpArr) (r : RandSrc) (k : ℕ) :
    Option NpArr :=
  (synthFrame (planStills stills0 r) 2 16 4 (runOnsets r) k).map resizeEven

/-- The full emitted frame sequence of the C9 scenario for one random stream. -/
def runSeq (stills0 : Bool → List Bool → NpArr) (r : RandSrc) :
    List (Option NpArr) :=
  (List.range 17).map (runFrame stills0 r)

/-! ## Batch-level control flow (script lines 61-96, 101-106, 191-202)

For the error-propagation claims we model the per-scene loop at the level of
externally visible events, in the order the script performs them: the README
(manifest) entry is appended first (lines 84-96); step 2 then opens each
first-colour image together with its second-colour counterpart, raising
`FileNotFoundError` — unguarded, so fatal to the whole process — at the first
missing counterpart (lines 101-106); step 3 writes the output frames; the
encoder subprocess is invoked and its stderr is captured and printed, never
raised (lines 191-192).  Identifiers (scene roots, colours, feature values)
are coded as naturals. -/

/-- A component-image filename, split at its delimiters. -/
structure Fname where
  root : ℕ
  color : ℕ
  feats : List ℕ
deriving DecidableEq

/-- An externally visible event of the batch run. -/
inductive Ev where
  | manifest (root : ℕ)
  | tempPair (f : Fname)
  | frame (root : ℕ) (k : ℕ)
  | encoder (root : ℕ) (ok : Bool)
deriving DecidableEq

/-- Step 2 over the scene's first-colour files: emit a temp-morph event per
file whose second-colour counterpart exists; abort (`true`) at the first file
whose counterpart is missing (the unguarded `Image.open`, line 106). -/
def step2 (avail : List Fname) (c1 : ℕ) : List Fname → List Ev × Bool
  | [] => ([], false)
  | f :: rest =>
    if { f with color := c1 } ∈ avail then
      let out := step2 avail c1 rest
      (Ev.tempPair f :: out.1, out.2)
    else ([], true)

/-- One scene's processing, in script order: manifest entry, then step 2
(aborting on a missing counterpart), then — when the temp store is complete —
the output frames and the encoder invocation whose failure is only reported.
An empty first-colour set also aborts (step 3 cannot open `..._morph0...`).
The Boolean is `true` when the scene raised. -/
def processScene (c0 c1 : ℕ) (avail : List Fname) (root : ℕ) (encOk : Bool)
    (ntot : ℕ) : List Ev × Bool :=
  let firsts := avail.filter (fun f => f.root == root && f.color == c0)
  let out2 := step2 avail c1 firsts
  if out2.2 then (Ev.manifest root :: out2.1, true)
  else if firsts = [] then (Ev.manifest root :: out2.1, true)
  else
    (Ev.manifest root :: out2.1 ++ (List.range (ntot + 1)).map (Ev.frame root) ++
      [Ev.encoder root encOk], false)

/-- The batch loop over scene roots (script line 61): there is no exception
handling around the loop body, so a raising scene ends the whole batch. -/
def processBatch (c0 c1 : ℕ) (avail : List Fname) (encOk : ℕ → Bool)
    (ntot : ℕ) : List ℕ → List Ev × Bool
  | [] => ([], false)
  | root :: rest =>
    let out := processScene c0 c1 avail root (encOk root) ntot
    if out.2 then (out.1, true)
    else
      let outRest := processBatch c0 c1 avail encOk ntot rest
      (out.1 ++ outRest.1, outRest.2)

/-- A scene's input data is complete: it has at least one first-colour file and
every first-colour file has its second-colour counterpart. -/
def sceneComplete (c0 c1 : ℕ) (avail : List Fname) (root : ℕ) : Prop :=
  avail.filter (fun f => f.root == root && f.color == c0) ≠ [] ∧
  ∀ f ∈ avail.filter (fun f => f.root == root && f.color == c0),
    { f with color := c1 } ∈ avail

/-! ## Filename substitution (script lines 105, 114, 141, 158)

The script pairs and renames files with `re.sub(token, replacement, name)`.
The tokens are plain alphanumeric strings, for which `re.sub` is literal
replacement of every non-overlapping occurrence, scanning left to right; we
model that on the character list of the filename.  The recursion is fuelled
(fuel bounded by the string length) to stay structurally recursive. -/

/-- Fuelled worker for literal-pattern `re.sub`: at each position, if the
pattern matches here, emit the replacement and continue after the match,
else keep the character and move on. -/
def subAllGo (pat repl : List Char) : ℕ → List Char → List Char
  | _, [] => []
  | 0, s => s
  | fuel + 1, c :: rest =>
    if pat.isPrefixOf (c :: rest) then
      repl ++ subAllGo pat repl fuel ((c :: rest).drop pat.length)
    else
      c :: subAllGo pat repl fuel rest

/-- `re.sub(pat, repl, s)` for a literal, non-empty pattern: replace every
non-overlapping occurrence, leftmost first. -/
def subAll (pat repl s : List Char) : List Char :=
  subAllGo pat repl s.length s

/-- `re.sub` on Python strings (literal pattern). -/
def pySub (pat repl s : String) : String :=
  String.mk (subAll pat.data repl.data s.data)

/-- The pattern matches `s` starting at position `i`. -/
def occursAt (pat s : List Char) (i : ℕ) : Bool :=
  pat.isPrefixOf (s.drop i)

/-! ## Concrete inputs used as witnesses and counterexamples -/

/-- A constant raster of shape `(h, w, 3)`. -/
def constImg (h w : ℕ) (q : ℚ) : NpArr :=
  ⟨h, w, 3, fun _ _ _ => q⟩

/-- A complete two-feature component library of 2 × 2 stills whose pixel value
encodes the colour: start colour 10, end colour 200. -/
def cStills : Bool → List Bool → NpArr :=
  fun b _ => constImg 2 2 (if b then 200 else 10)

/-- A random stream under which the two quick-change windows of the C9 scenario
overlap: `r0 = 17/18` puts onset 0 at frame 7, `r1 = 0` puts onset 1 at
frame 9, and both windows contain frame 7. -/
def badRand : RandSrc :=
  ⟨false, false, 17 / 18, 0⟩

/-- A random stream whose onsets (frames 1 and 9) leave the two quick-change
windows disjoint. -/
def goodRand : RandSrc :=
  ⟨false, false, 0, 0⟩

/-- A scene (root 1) whose only file is the first-colour still: its
second-colour counterpart (colour 11) is missing. -/
def availMissing : List Fname :=
  [⟨1, 10, [20]⟩]

/-- Two scenes: scene 1 is missing its second-colour still, scene 2 is
complete. -/
def availTwo : List Fname :=
  [⟨1, 10, [20]⟩, ⟨2, 10, [20]⟩, ⟨2, 11, [20]⟩]

/-- A feature-value token (`no`) that also occurs as a substring of the other
feature's value (`nothing`) in `badName` below. -/
def tokNo : String := ("no")

/-- The post-change value substituted for `tokNo`. -/
def tokYes : String := ("yes")

/-- A well-behaved temp filename: each token occurs exactly once and is not a
substring of any other part. -/
def goodName : String := ("Img01_morph3_no.jpg")

/-- What the well-behaved substitution should produce. -/
def goodNameAfter : String := ("Img01_morph3_yes.jpg")

/-- A filename violating the uniqueness precondition: `no` also occurs inside
the second feature's value `nothing`. -/
def badName : String := ("Img01_morph3_no_nothing.jpg")

/-- What `re.sub` actually produces on `badName`: both occurrences rewritten. -/
def badNameActual : String := ("Img01_morph3_yes_yesthing.jpg")

/-- The filename the synthesizer intends on `badName`: only the first feature's
token swapped. -/
def badNameIntended : String := ("Img01_morph3_yes_nothing.jpg")

/-! ## Lemmas about the blend primitive -/

theorem bdim_self (m : ℕ) : bdim m m = true := by
  simp [bdim]

theorem bidx_of_lt {m i : ℕ} (h : i < m) : bidx m i = i := by
  unfold bidx
  split
  · omega
  · rfl

theorem shape_eq_iff {a b : NpArr} :
    a.shape = b.shape ↔ a.s0 = b.s0 ∧ a.s1 = b.s1 ∧ a.s2 = b.s2 := by
  simp [NpArr.shape, Prod.ext_iff]

theorem weightedSum_eq_of_shape_eq {a b : NpArr} (h : a.shape = b.shape)
    (wa wb : ℚ) :
    weightedSum a b wa wb =
      some { s0 := a.s0, s1 := a.s1, s2 := a.s2
             val := fun i j c =>
               a.val (bidx a.s0 i) (bidx a.s1 j) (bidx a.s2 c) * wa +
               b.val (bidx b.s0 i) (bidx b.s1 j) (bidx b.s2 c) * wb } := by
  obtain ⟨h0, h1, h2⟩ := shape_eq_iff.1 h
  simp [weightedSum, broadcastable, h0, h1, h2, bdim_self]

theorem blend_eq_of_shape_eq {a b : NpArr} (h : a.shape = b.shape) (w : ℚ) :
    blend a b w =
      some (astypeU8
        { s0 := a.s0, s1 := a.s1, s2 := a.s2
          val := fun i j c =>
            a.val (bidx a.s0 i) (bidx a.s1 j) (bidx a.s2 c) * (1 - w) +
            b.val (bidx b.s0 i) (bidx b.s1 j) (bidx b.s2 c) * w }) := by
  rw [blend, weightedSum_eq_of_shape_eq h]
  rfl

theorem astypeU8_shape (a : NpArr) : (astypeU8 a).shape = a.shape := rfl

theorem toU8_coe {m : ℕ} (h : m < 256) : (toU8 (m : ℚ) : ℚ) = (m : ℚ) := by
  have h0 : (0 : ℚ) ≤ (m : ℚ) := by positivity
  have : pyTrunc (m : ℚ) = (m : ℤ) := by
    rw [pyTrunc, if_pos h0]
    exact_mod_cast Int.floor_natCast m
  rw [toU8, this]
  norm_cast
  simp [Int.toNat_natCast, Nat.mod_eq_of_lt h]

/-- C4: for all images A and B of equal shape holding 8-bit data,
`blend(A, B, 0)` equals A exactly and `blend(A, B, 1)` equals B exactly, and
for every weight the result has the same dimensions as A and B. -/
theorem blend_endpoints_and_shape (A B : NpArr) (hsh : A.shape = B.shape)
    (hA : IntImg A) (hB : IntImg B) :
    (∃ R, blend A B 0 = some R ∧ R.EqOn A) ∧
    (∃ R, blend A B 1 = some R ∧ R.EqOn B) ∧
    (∀ w : ℚ, ∃ R, blend A B w = some R ∧ R.shape = A.shape ∧ R.shape = B.shape) := by
  obtain ⟨h0, h1, h2⟩ := shape_eq_iff.1 hsh
  refine ⟨⟨_, blend_eq_of_shape_eq hsh 0, rfl, ?_⟩,
          ⟨_, blend_eq_of_shape_eq hsh 1, hsh, ?_⟩,
          fun w => ⟨_, blend_eq_of_shape_eq hsh w, rfl, hsh⟩⟩
  · intro i j c hi hj hc
    have hi' : i < A.s0 := hi
    have hj' : j < A.s1 := hj
    have hc' : c < A.s2 := hc
    obtain ⟨m, hm, hv⟩ := hA i j c hi' hj' hc'
    show (toU8 (A.val (bidx A.s0 i) (bidx A.s1 j) (bidx A.s2 c) * (1 - 0) +
          B.val (bidx B.s0 i) (bidx B.s1 j) (bidx B.s2 c) * 0) : ℚ) = A.val i j c
    rw [bidx_of_lt hi', bidx_of_lt hj', bidx_of_lt hc']
    have harith : A.val i j c * (1 - 0) +
        B.val (bidx B.s0 i) (bidx B.s1 j) (bidx B.s2 c) * 0 = A.val i j c := by
      ring
    rw [harith, hv, toU8_coe hm]
  · intro i j c hi hj hc
    have hi' : i < A.s0 := hi
    have hj' : j < A.s1 := hj
    have hc' : c < A.s2 := hc
    obtain ⟨m, hm, hv⟩ := hB i j c (h0 ▸ hi') (h1 ▸ hj') (h2 ▸ hc')
    show (toU8 (A.val (bidx A.s0 i) (bidx A.s1 j) (bidx A.s2 c) * (1 - 1) +
          B.val (bidx B.s0 i) (bidx B.s1 j) (bidx B.s2 c) * 1) : ℚ) = B.val i j c
    rw [bidx_of_lt (h0 ▸ hi' : i < B.s0), bidx_of_lt (h1 ▸ hj' : j < B.s1),
      bidx_of_lt (h2 ▸ hc' : c < B.s2)]
    have harith : A.val (bidx A.s0 i) (bidx A.s1 j) (bidx A.s2 c) * (1 - 1) +
        B.val i j c * 1 = B.val i j c := by
      ring
    rw [harith, hv, toU8_coe hm]

/-- Witness for C4 at two concrete equal-shape 8-bit rasters. -/
theorem blend_endpoints_and_shape_w :
    ((constImg 2 3 7).shape = (constImg 2 3 9).shape ∧
      IntImg (constImg 2 3 7) ∧ IntImg (constImg 2 3 9)) ∧
    ((∃ R, blend (constImg 2 3 7) (constImg 2 3 9) 0 = some R ∧
        R.EqOn (constImg 2 3 7)) ∧
     (∃ R, blend (constImg 2 3 7) (constImg 2 3 9) 1 = some R ∧
        R.EqOn (constImg 2 3 9)) ∧
     (∀ w : ℚ, ∃ R, blend (constImg 2 3 7) (constImg 2 3 9) w = some R ∧
        R.shape = (constImg 2 3 7).shape ∧ R.shape = (constImg 2 3 9).shape)) :=
  ⟨⟨rfl, fun _ _ _ _ _ _ => ⟨7, by norm_num, by simp [constImg]⟩,
      fun _ _ _ _ _ _ => ⟨9, by norm_num, by simp [constImg]⟩⟩,
    blend_endpoints_and_shape _ _ rfl
      (fun _ _ _ _ _ _ => ⟨7, by norm_num, by simp [constImg]⟩)
      (fun _ _ _ _ _ _ => ⟨9, by norm_num, by simp [constImg]⟩)⟩

/-- C5 counterexample: a 1 × 2 and a 2 × 2 raster have different dimensions,
yet numpy broadcasting lets the blend succeed silently — it does not raise. -/
theorem blend_mismatch_can_succeed :
    (constImg 1 2 0).shape ≠ (constImg 2 2 0).shape ∧
    (blend (constImg 1 2 0) (constImg 2 2 0) (1 / 2)).isSome = true := by
  constructor
  · decide
  · rfl

/-- C5 amended: the blend raises (produces no output) exactly for input pairs
whose shapes are not numpy-broadcast-compatible; a differing dimension with
neither side equal to 1 always falls in this case. -/
theorem blend_nonbroadcastable_none (A B : NpArr) (w : ℚ)
    (h : broadcastable A B = false) : blend A B w = none := by
  simp [blend, weightedSum, h]

/-- Witness for the amended C5 at 2 × 2 versus 3 × 2 rasters. -/
theorem blend_nonbroadcastable_none_w :
    broadcastable (constImg 2 2 0) (constImg 3 2 0) = false ∧
    blend (constImg 2 2 0) (constImg 3 2 0) (1 / 2) = none :=
  ⟨rfl, blend_nonbroadcastable_none _ _ _ rfl⟩

/-- C8: every frame emitted to the encoder is resized so that both raster
dimensions are even, and each dimension grows by at most one pixel. -/
theorem resizeEven_shape (img : NpArr) :
    (resizeEven img).s0 % 2 = 0 ∧ (resizeEven img).s1 % 2 = 0 ∧
    img.s0 ≤ (resizeEven img).s0 ∧ (resizeEven img).s0 ≤ img.s0 + 1 ∧
    img.s1 ≤ (resizeEven img).s1 ∧ (resizeEven img).s1 ≤ img.s1 + 1 ∧
    (resizeEven img).s2 = img.s2 := by
  show evenDim img.s0 % 2 = 0 ∧ evenDim img.s1 % 2 = 0 ∧
    img.s0 ≤ evenDim img.s0 ∧ evenDim img.s0 ≤ img.s0 + 1 ∧
    img.s1 ≤ evenDim img.s1 ∧ evenDim img.s1 ≤ img.s1 + 1 ∧ img.s2 = img.s2
  unfold evenDim
  refine ⟨?_, ?_, ?_, ?_, ?_, ?_, rfl⟩ <;> split <;> omega

/-! ## Lemmas about the synthesizer -/

theorem toksVec_map_val (v : List Bool) : toksVec (v.map Tok.val) = some v := by
  induction v with
  | nil => rfl
  | cons b t ih => simp [toksVec, ih]

theorem tempMorph_eq_blend (stills : Bool → List Bool → NpArr) {ntot : ℕ}
    (hN : 0 < ntot) (k : ℕ) (v : List Bool) :
    tempMorph stills ntot k v =
      blend (stills false v) (stills true v) ((k : ℚ) / ntot) := by
  have hne : ((ntot : ℚ)) ≠ 0 := by
    exact_mod_cast hN.ne'
  have hw : ((ntot : ℚ) - k) / ntot = 1 - (k : ℚ) / ntot := by
    field_simp
  rw [tempMorph, blend, hw]

theorem quickBlend_eq_blend (a b : NpArr) (o : ℤ) (w k : ℕ) :
    quickBlend a b o w k =
      blend a b (1 - change_step w * quickCount o w k) := by
  have h : 1 - (1 - change_step w * quickCount o w k) =
      change_step w * quickCount o w k := by
    ring
  rw [quickBlend, blend, h]

theorem tempMorph_some (stills : Bool → List Bool → NpArr) (ntot k : ℕ)
    (v : List Bool) (h : (stills false v).shape = (stills true v).shape) :
    ∃ A, tempMorph stills ntot k v = some A ∧ A.shape = (stills false v).shape := by
  rw [tempMorph, weightedSum_eq_of_shape_eq h]
  exact ⟨_, rfl, rfl⟩

theorem quickBlend_some (a b : NpArr) (o : ℤ) (w k : ℕ)
    (h : a.shape = b.shape) :
    ∃ C, quickBlend a b o w k = some C ∧ C.shape = a.shape := by
  rw [quickBlend, weightedSum_eq_of_shape_eq h]
  exact ⟨_, rfl, rfl⟩

theorem selectPath_nil (w k : ℕ) (st : SelSt) : selectPath w k [] st = some st := rfl

theorem selectPath_one (w k : ℕ) (o : ℤ) (st : SelSt) :
    selectPath w k [o] st = applyChange w k o 0 st := by
  show (applyChange w k o 0 st >>= fun s => pure s) = applyChange w k o 0 st
  cases applyChange w k o 0 st <;> rfl

theorem selectPath_two (w k : ℕ) (o0 o1 : ℤ) (st : SelSt) :
    selectPath w k [o0, o1] st =
      applyChange w k o0 0 st >>= applyChange w k o1 1 := by
  show (applyChange w k o0 0 st >>= fun s =>
      applyChange w k o1 1 s >>= fun s => pure s) = _
  cases applyChange w k o0 0 st with
  | none => rfl
  | some s1 =>
    show (applyChange w k o1 1 s1 >>= fun s => pure s) = applyChange w k o1 1 s1
    cases applyChange w k o1 1 s1 <;> rfl

theorem initStore_single (stills : Bool → List Bool → NpArr) {ntot k : ℕ}
    (hk : k ≤ ntot) (a : Bool) :
    initStore stills ntot (k, [Tok.val a]) = tempMorph stills ntot k [a] := by
  simp [initStore, toksVec, hk]

theorem initStore_pair (stills : Bool → List Bool → NpArr) {ntot k : ℕ}
    (hk : k ≤ ntot) (a b : Bool) :
    initStore stills ntot (k, [Tok.val a, Tok.val b]) =
      tempMorph stills ntot k [a, b] := by
  simp [initStore, toksVec, hk]

/-- C2: for a scene with zero feature dimensions the synthesizer produces
exactly `ntot + 1` frames, indexed `0..ntot`, and frame `k` is the pure colour
blend of the start-colour and end-colour stills with weight `k / ntot` toward
the end colour — the feature-overlay step changes nothing. -/
theorem synth_no_features (stills : Bool → List Bool → NpArr) (ntot w : ℕ)
    (hN : 0 < ntot) :
    (synthSeq stills 0 ntot w []).length = ntot + 1 ∧
    ∀ k, k ≤ ntot →
      synthFrame stills 0 ntot w [] k =
        blend (stills false []) (stills true []) ((k : ℚ) / ntot) := by
  constructor
  · simp [synthSeq]
  · intro k hk
    have h1 : selectPath w k []
        ⟨initStore stills ntot, List.replicate 0 (Tok.val false)⟩ =
        some ⟨initStore stills ntot, []⟩ := rfl
    rw [synthFrame, h1]
    show initStore stills ntot (k, []) = _
    rw [show initStore stills ntot (k, []) = tempMorph stills ntot k [] from by
      simp [initStore, toksVec, hk]]
    exact tempMorph_eq_blend stills hN k []

/-- Witness for C2 at a concrete scene. -/
theorem synth_no_features_w :
    (0 : ℕ) < 16 ∧
    ((synthSeq cStills 0 16 4 []).length = 16 + 1 ∧
     ∀ k, k ≤ 16 →
      synthFrame cStills 0 16 4 [] k =
        blend (cStills false []) (cStills true []) ((k : ℚ) / 16)) :=
  ⟨by norm_num, synth_no_features cStills 16 4 (by norm_num)⟩

theorem updStore_self (s : Store) (key : ℕ × List Tok) (img : NpArr) :
    updStore s key img key = some img := by
  simp [updStore]

theorem updStore_other (s : Store) {key kt : ℕ × List Tok} (h : kt ≠ key)
    (img : NpArr) : updStore s key img kt = s kt := by
  simp [updStore, h]

theorem applyChange_pre {w k : ℕ} {o : ℤ} {j : ℕ} {st : SelSt}
    (h : (k : ℤ) < o - (w : ℤ) / 2) :
    applyChange w k o j st = some st := by
  unfold applyChange
  rw [if_neg, if_neg]
  · omega
  · omega

theorem applyChange_post {w k : ℕ} {o : ℤ} {j : ℕ} {st : SelSt}
    (h : o + (w : ℤ) / 2 ≤ (k : ℤ)) :
    applyChange w k o j st = some ⟨st.store, st.toks.set j (Tok.val true)⟩ := by
  unfold applyChange
  rw [if_neg, if_pos h]
  omega

theorem applyChange_window {w k : ℕ} {o : ℤ} {j : ℕ} {st : SelSt}
    (h1 : o - (w : ℤ) / 2 ≤ (k : ℤ)) (h2 : (k : ℤ) < o + (w : ℤ) / 2)
    {A B C : NpArr}
    (hA : st.store (k, st.toks) = some A)
    (hB : st.store (k, st.toks.set j (Tok.val true)) = some B)
    (hC : quickBlend A B o w k = some C) :
    applyChange w k o j st =
      some ⟨updStore st.store (k, st.toks.set j Tok.avg) C,
            st.toks.set j Tok.avg⟩ := by
  unfold applyChange
  rw [if_pos ⟨h1, h2⟩, hA, hB]
  show (match quickBlend A B o w k with
    | some avgImg =>
      some ({ store := updStore st.store (k, st.toks.set j Tok.avg) avgImg,
              toks := st.toks.set j Tok.avg } : SelSt)
    | none => none) = _
  rw [hC]

/-- C1: for a scene with exactly one feature dimension, onset frame `o` and
transition window `w` (even in the script, so integer halving is exact):
every frame with index below `o - w/2` is the pre-change colour morph, every
frame with index at least `o + w/2` is the post-change colour morph, every
frame inside the window is a blend of the two whose weight toward the
post-change state strictly increases with the frame index. -/
theorem synth_one_feature (stills : Bool → List Bool → NpArr) (S : ℕ × ℕ × ℕ)
    (hsh : ∀ b v, (stills b v).shape = S) (ntot w : ℕ) (o : ℤ) :
    (∀ k : ℕ, k ≤ ntot → (k : ℤ) < o - (w : ℤ) / 2 →
      synthFrame stills 1 ntot w [o] k = tempMorph stills ntot k [false]) ∧
    (∀ k : ℕ, k ≤ ntot → o + (w : ℤ) / 2 ≤ (k : ℤ) →
      synthFrame stills 1 ntot w [o] k = tempMorph stills ntot k [true]) ∧
    (∀ k : ℕ, k ≤ ntot → o - (w : ℤ) / 2 ≤ (k : ℤ) → (k : ℤ) < o + (w : ℤ) / 2 →
      ∃ A B, tempMorph stills ntot k [false] = some A ∧
        tempMorph stills ntot k [true] = some B ∧
        synthFrame stills 1 ntot w [o] k =
          blend A B (1 - change_step w * quickCount o w k)) ∧
    (∀ k1 k2 : ℕ, k1 < k2 →
      1 - change_step w * quickCount o w k1 <
        1 - change_step w * quickCount o w k2) := by
  have hshp : ∀ v, (stills false v).shape = (stills true v).shape :=
    fun v => (hsh false v).trans (hsh true v).symm
  have hrep : List.replicate 1 (Tok.val false) = [Tok.val false] := rfl
  refine ⟨?_, ?_, ?_, ?_⟩
  · intro k hk hpre
    rw [synthFrame, hrep, selectPath_one, applyChange_pre hpre]
    exact initStore_single stills hk false
  · intro k hk hpost
    rw [synthFrame, hrep, selectPath_one, applyChange_post hpost]
    exact initStore_single stills hk true
  · intro k hk h1 h2
    obtain ⟨A, hA, hAs⟩ := tempMorph_some stills ntot k [false] (hshp [false])
    obtain ⟨B, hB, hBs⟩ := tempMorph_some stills ntot k [true] (hshp [true])
    have hAB : A.shape = B.shape := by
      rw [hAs, hBs, hsh false [false], hsh false [true]]
    obtain ⟨C, hC, hCs⟩ := quickBlend_some A B o w k hAB
    refine ⟨A, B, hA, hB, ?_⟩
    rw [synthFrame, hrep, selectPath_one,
      applyChange_window h1 h2 ((initStore_single stills hk false).trans hA)
        ((initStore_single stills hk true).trans hB) hC]
    show updStore (initStore stills ntot) (k, [Tok.avg]) C (k, [Tok.avg]) = _
    rw [updStore_self]
    exact (quickBlend_eq_blend A B o w k ▸ hC).symm
  · intro k1 k2 h12
    have hc : (0 : ℚ) < change_step w := by
      unfold change_step
      positivity
    have hq : quickCount o w k2 < quickCount o w k1 := by
      unfold quickCount
      have hkk : (k1 : ℚ) < (k2 : ℚ) := by exact_mod_cast h12
      linarith
    have := mul_lt_mul_of_pos_left hq hc
    linarith

/-- Witness for C1 at a concrete scene (`ntot = 16`, `w = 4`, onset 8):
frame 3 is pre-change, frame 12 post-change, frame 7 an in-window blend. -/
theorem synth_one_feature_w :
    (∀ b v, (cStills b v).shape = (2, 2, 3)) ∧
    ((3 : ℤ) < 8 - (4 : ℤ) / 2 ∧ (3 : ℕ) ≤ 16 ∧
     8 + (4 : ℤ) / 2 ≤ (12 : ℤ) ∧ (12 : ℕ) ≤ 16 ∧
     8 - (4 : ℤ) / 2 ≤ (7 : ℤ) ∧ (7 : ℤ) < 8 + (4 : ℤ) / 2 ∧ (7 : ℕ) ≤ 16) ∧
    (synthFrame cStills 1 16 4 [8] 3 = tempMorph cStills 16 3 [false] ∧
     synthFrame cStills 1 16 4 [8] 12 = tempMorph cStills 16 12 [true] ∧
     ∃ A B, tempMorph cStills 16 7 [false] = some A ∧
       tempMorph cStills 16 7 [true] = some B ∧
       synthFrame cStills 1 16 4 [8] 7 =
         blend A B (1 - change_step 4 * quickCount 8 4 7)) := by
  have h := synth_one_feature cStills (2, 2, 3) (fun b v => rfl) 16 4 8
  exact ⟨fun b v => rfl, by norm_num,
    h.1 3 (by norm_num) (by decide),
    h.2.1 12 (by norm_num) (by decide),
    h.2.2.1 7 (by norm_num) (by decide) (by decide)⟩

/-- C3 counterexample: at `r = 0` — a value `numpy.random.rand()` can return —
the sampled proportion for dimension 0 of 2 equals the lower endpoint
`0/2 + m` of its interval exactly, so it does not lie strictly inside it. -/
theorem onset_prop_hits_lower_endpoint :
    new_change_moment_prop 2 0 0 =
      (0 : ℚ) / 2 + (1 / (2 : ℚ)) * (1 - quick_change_time_section_proportion) / 2 ∧
    ¬((0 : ℚ) / 2 + (1 / (2 : ℚ)) * (1 - quick_change_time_section_proportion) / 2 <
      new_change_moment_prop 2 0 0) := by
  constructor
  · unfold new_change_moment_prop quick_change_time_section_proportion
    norm_num
  · unfold new_change_moment_prop quick_change_time_section_proportion
    norm_num

/-- C3 amended: for every `n ≥ 1`, dimension `i < n` and draw `r ∈ [0, 1)`,
the sampled onset proportion lies in the half-open interval
`[i/n + m, (i+1)/n − m)` with `m = (1/n)(1 − active_window_fraction)/2`: it can
hit the lower endpoint exactly but stays strictly below the upper endpoint;
the proportion is converted to a frame index as `floor(prop * (ntot + 1))`. -/
theorem onset_prop_in_interval (n i : ℕ) (r : ℚ) (ntot : ℕ)
    (hn : 1 ≤ n) (hi : i < n) (hr0 : 0 ≤ r) (hr1 : r < 1) :
    (i : ℚ) / n + (1 / n) * (1 - quick_change_time_section_proportion) / 2 ≤
      new_change_moment_prop n i r ∧
    new_change_moment_prop n i r <
      ((i : ℚ) + 1) / n - (1 / n) * (1 - quick_change_time_section_proportion) / 2 ∧
    new_change_moment_frame n i r ntot =
      ⌊new_change_moment_prop n i r * ((ntot : ℚ) + 1)⌋ := by
  have hn0 : 0 < n := hn
  have hnq : (0 : ℚ) < (n : ℚ) := by exact_mod_cast hn0
  have hnne : ((n : ℚ)) ≠ 0 := hnq.ne'
  refine ⟨?_, ?_, ?_⟩
  · have hc : 0 ≤ (1 / (n : ℚ)) * quick_change_time_section_proportion * r := by
      unfold quick_change_time_section_proportion
      positivity
    unfold new_change_moment_prop
    linarith
  · have hp : (0 : ℚ) < (1 / (n : ℚ)) * quick_change_time_section_proportion := by
      unfold quick_change_time_section_proportion
      positivity
    have hd : (1 / (n : ℚ)) * quick_change_time_section_proportion * r <
        (1 / (n : ℚ)) * quick_change_time_section_proportion * 1 :=
      mul_lt_mul_of_pos_left hr1 hp
    have heq : (i : ℚ) / n + (1 / n) * (1 - quick_change_time_section_proportion) / 2 +
        (1 / n) * quick_change_time_section_proportion * 1 =
        ((i : ℚ) + 1) / n - (1 / n) * (1 - quick_change_time_section_proportion) / 2 := by
      unfold quick_change_time_section_proportion
      field_simp
      ring
    unfold new_change_moment_prop
    linarith
  · have hprop0 : 0 ≤ new_change_moment_prop n i r := by
      unfold new_change_moment_prop quick_change_time_section_proportion
      have h1 : 0 ≤ (i : ℚ) / n := by positivity
      have h2 : 0 ≤ (1 / (n : ℚ)) * (1 - 3 / 4) / 2 := by
        rw [show (1 : ℚ) - 3 / 4 = 1 / 4 from by norm_num]
        positivity
      have h3 : 0 ≤ (1 / (n : ℚ)) * (3 / 4) * r := by positivity
      linarith
    have hmul : 0 ≤ new_change_moment_prop n i r * ((ntot : ℚ) + 1) := by
      have : (0 : ℚ) ≤ (ntot : ℚ) + 1 := by positivity
      exact mul_nonneg hprop0 this
    unfold new_change_moment_frame pyTrunc
    rw [if_pos hmul]

/-- Witness for the amended C3 at `n = 2`, `i = 1`, `r = 1/2`, `ntot = 16`. -/
theorem onset_prop_in_interval_w :
    ((1 : ℕ) ≤ 2 ∧ (1 : ℕ) < 2 ∧ (0 : ℚ) ≤ 1 / 2 ∧ (1 / 2 : ℚ) < 1) ∧
    ((1 : ℚ) / 2 + (1 / 2) * (1 - quick_change_time_section_proportion) / 2 ≤
      new_change_moment_prop 2 1 (1 / 2) ∧
     new_change_moment_prop 2 1 (1 / 2) <
      ((1 : ℚ) + 1) / 2 - (1 / 2) * (1 - quick_change_time_section_proportion) / 2 ∧
     new_change_moment_frame 2 1 (1 / 2) 16 =
      ⌊new_change_moment_prop 2 1 (1 / 2) * ((16 : ℚ) + 1)⌋) :=
  ⟨⟨by norm_num, by norm_num, by norm_num, by norm_num⟩,
    onset_prop_in_interval 2 1 (1 / 2) 16 (by norm_num) (by norm_num)
      (by norm_num) (by norm_num)⟩

/-! ## Lemmas about the batch model -/

theorem step2_abort {avail : List Fname} {c1 : ℕ} :
    ∀ fs : List Fname, (∃ f ∈ fs, { f with color := c1 } ∉ avail) →
      (step2 avail c1 fs).2 = true := by
  intro fs
  induction fs with
  | nil =>
    intro h
    simp at h
  | cons f rest ih =>
    intro h
    by_cases hf : { f with color := c1 } ∈ avail
    · have hrest : ∃ g ∈ rest, { g with color := c1 } ∉ avail := by
        obtain ⟨g, hg, hgm⟩ := h
        rcases List.mem_cons.1 hg with hgf | hgr
        · subst hgf
          exact absurd hf hgm
        · exact ⟨g, hgr, hgm⟩
      simp [step2, hf, ih hrest]
    · simp [step2, hf]

theorem step2_no_abort {avail : List Fname} {c1 : ℕ} :
    ∀ fs : List Fname, (∀ f ∈ fs, { f with color := c1 } ∈ avail) →
      (step2 avail c1 fs).2 = false := by
  intro fs
  induction fs with
  | nil =>
    intro _
    rfl
  | cons f rest ih =>
    intro h
    have hf : { f with color := c1 } ∈ avail := h f (List.mem_cons_self f rest)
    have hr := ih (fun g hg => h g (List.mem_cons_of_mem f hg))
    simp [step2, hf, hr]

theorem step2_no_frames {avail : List Fname} {c1 : ℕ} :
    ∀ (fs : List Fname) (root k : ℕ), Ev.frame root k ∉ (step2 avail c1 fs).1 := by
  intro fs
  induction fs with
  | nil =>
    intro root k
    simp [step2]
  | cons f rest ih =>
    intro root k
    by_cases hf : { f with color := c1 } ∈ avail
    · simp [step2, hf, ih root k]
    · simp [step2, hf]

theorem processScene_complete {c0 c1 : ℕ} {avail : List Fname} {root : ℕ}
    (hc : sceneComplete c0 c1 avail root) (encOk : Bool) (ntot : ℕ) :
    processScene c0 c1 avail root encOk ntot =
      (Ev.manifest root ::
        ((step2 avail c1
          (avail.filter (fun f => f.root == root && f.color == c0))).1 ++
         (List.range (ntot + 1)).map (Ev.frame root) ++ [Ev.encoder root encOk]),
       false) := by
  obtain ⟨hne, hall⟩ := hc
  have h2 := step2_no_abort _ hall
  simp [processScene, h2, hne]

/-- C6 counterexample: a scene whose only still lacks its second-colour
counterpart aborts, yet its manifest entry has already been written — the
claim that no manifest entry is written for such a scene is false. -/
theorem scene_missing_still_cex :
    (processScene 10 11 availMissing 1 true 3).2 = true ∧
    Ev.manifest 1 ∈ (processScene 10 11 availMissing 1 true 3).1 := by
  constructor
  · decide
  · decide

/-- C6 amended: a scene missing the second-colour counterpart of one of its
first-colour stills aborts at the first attempt to open the missing file —
before any output frame is synthesized — but a manifest entry for the scene
has already been appended, because the script writes the README entry before
opening any image. -/
theorem scene_missing_still (c0 c1 : ℕ) (avail : List Fname) (root : ℕ)
    (encOk : Bool) (ntot : ℕ)
    (h : ∃ f ∈ avail.filter (fun f => f.root == root && f.color == c0),
      { f with color := c1 } ∉ avail) :
    (processScene c0 c1 avail root encOk ntot).2 = true ∧
    Ev.manifest root ∈ (processScene c0 c1 avail root encOk ntot).1 ∧
    ∀ k, Ev.frame root k ∉ (processScene c0 c1 avail root encOk ntot).1 := by
  have hab := step2_abort _ h
  refine ⟨?_, ?_, ?_⟩
  · simp [processScene, hab]
  · simp [processScene, hab]
  · intro k
    simp [processScene, hab, step2_no_frames]

/-- Witness for the amended C6 at the concrete one-file scene. -/
theorem scene_missing_still_w :
    (∃ f ∈ availMissing.filter (fun f => f.root == 1 && f.color == 10),
      { f with color := 11 } ∉ availMissing) ∧
    ((processScene 10 11 availMissing 1 true 3).2 = true ∧
     Ev.manifest 1 ∈ (processScene 10 11 availMissing 1 true 3).1 ∧
     ∀ k, Ev.frame 1 k ∉ (processScene 10 11 availMissing 1 true 3).1) :=
  ⟨by decide, scene_missing_still 10 11 availMissing 1 true 3 (by decide)⟩

/-- C7 counterexample: with scene 1 missing a still and scene 2 complete, the
batch stops at scene 1 and scene 2 is never processed — the claim that the
batch continues with the next scene is false. -/
theorem batch_stops_cex :
    (processBatch 10 11 availTwo (fun _ => true) 3 [1, 2]).2 = true ∧
    Ev.manifest 2 ∉ (processBatch 10 11 availTwo (fun _ => true) 3 [1, 2]).1 := by
  constructor
  · decide
  · decide

/-- C7 amended: a data-integrity error in one scene aborts the entire batch
(the scene loop has no exception handling, so later scenes are never
processed), while an external encoder failure is captured and reported (an
`encoder` event with `ok = false`) and aborts neither that scene nor the
batch. -/
theorem batch_error_propagation (c0 c1 : ℕ) (avail : List Fname)
    (encOk : ℕ → Bool) (ntot : ℕ) (root : ℕ) (rest : List ℕ)
    (hfail : (processScene c0 c1 avail root (encOk root) ntot).2 = true)
    (root2 : ℕ) (rest2 : List ℕ) (hc : sceneComplete c0 c1 avail root2)
    (henc : encOk root2 = false) :
    processBatch c0 c1 avail encOk ntot (root :: rest) =
      ((processScene c0 c1 avail root (encOk root) ntot).1, true) ∧
    (processScene c0 c1 avail root2 (encOk root2) ntot).2 = false ∧
    Ev.encoder root2 false ∈
      (processScene c0 c1 avail root2 (encOk root2) ntot).1 ∧
    processBatch c0 c1 avail encOk ntot (root2 :: rest2) =
      ((processScene c0 c1 avail root2 (encOk root2) ntot).1 ++
         (processBatch c0 c1 avail encOk ntot rest2).1,
       (processBatch c0 c1 avail encOk ntot rest2).2) := by
  have hsc := processScene_complete hc (encOk root2) ntot
  refine ⟨?_, ?_, ?_, ?_⟩
  · simp [processBatch, hfail]
  · rw [hsc]
  · rw [hsc, henc]
    simp
  · have h2 : (processScene c0 c1 avail root2 (encOk root2) ntot).2 = false := by
      rw [hsc]
    simp [processBatch, h2]

/-- Witness for the amended C7: scene 1 incomplete, scene 2 complete, encoder
failing on every scene. -/
theorem batch_error_propagation_w :
    ((processScene 10 11 availTwo 1 ((fun (_ : ℕ) => false) 1) 3).2 = true ∧
     sceneComplete 10 11 availTwo 2 ∧ (fun (_ : ℕ) => false) 2 = false) ∧
    (processBatch 10 11 availTwo (fun _ => false) 3 [1] =
      ((processScene 10 11 availTwo 1 ((fun (_ : ℕ) => false) 1) 3).1, true) ∧
     (processScene 10 11 availTwo 2 ((fun (_ : ℕ) => false) 2) 3).2 = false ∧
     Ev.encoder 2 false ∈
       (processScene 10 11 availTwo 2 ((fun (_ : ℕ) => false) 2) 3).1 ∧
     processBatch 10 11 availTwo (fun _ => false) 3 [2] =
       ((processScene 10 11 availTwo 2 ((fun (_ : ℕ) => false) 2) 3).1 ++
          (processBatch 10 11 availTwo (fun _ => false) 3 []).1,
        (processBatch 10 11 availTwo (fun _ => false) 3 []).2)) :=
  ⟨⟨by decide, ⟨by decide, by decide⟩, rfl⟩,
    batch_error_propagation 10 11 availTwo (fun _ => false) 3 1 []
      (by decide) 2 [] ⟨by decide, by decide⟩ rfl⟩

/-- With two quick changes whose transition windows are disjoint
(`o0 + w/2 ≤ o1 - w/2`), every frame of the two-feature synthesis succeeds
and has the common still shape: each frame is either a plain colour morph,
or one saved `avg` blend whose inputs all exist in the temp store. -/
theorem synthFrame_two_valid (stills : Bool → List Bool → NpArr) (S : ℕ × ℕ × ℕ)
    (hsh : ∀ b v, (stills b v).shape = S) (ntot w : ℕ) (o0 o1 : ℤ)
    (hgap : o0 + (w : ℤ) / 2 ≤ o1 - (w : ℤ) / 2) (k : ℕ) (hk : k ≤ ntot) :
    ∃ F, synthFrame stills 2 ntot w [o0, o1] k = some F ∧ F.shape = S := by
  have hshp : ∀ v, (stills false v).shape = (stills true v).shape :=
    fun v => (hsh false v).trans (hsh true v).symm
  have hrep2 : List.replicate 2 (Tok.val false) = [Tok.val false, Tok.val false] := rfl
  have hhalf : (0 : ℤ) ≤ (w : ℤ) / 2 := by omega
  by_cases h1 : (k : ℤ) < o0 - (w : ℤ) / 2
  · have h1' : (k : ℤ) < o1 - (w : ℤ) / 2 := by omega
    obtain ⟨F, hF, hFs⟩ := tempMorph_some stills ntot k [false, false] (hshp _)
    refine ⟨F, ?_, hFs.trans (hsh false [false, false])⟩
    have e1 : selectPath w k [o0, o1]
        ⟨initStore stills ntot, [Tok.val false, Tok.val false]⟩ =
        some ⟨initStore stills ntot, [Tok.val false, Tok.val false]⟩ := by
      rw [selectPath_two, applyChange_pre h1]
      show applyChange w k o1 1
        ⟨initStore stills ntot, [Tok.val false, Tok.val false]⟩ = _
      rw [applyChange_pre h1']
    rw [synthFrame, hrep2, e1]
    exact (initStore_pair stills hk false false).trans hF
  · push_neg at h1
    by_cases h2 : (k : ℤ) < o0 + (w : ℤ) / 2
    · have hpre1 : (k : ℤ) < o1 - (w : ℤ) / 2 := by omega
      obtain ⟨A, hA, hAs⟩ := tempMorph_some stills ntot k [false, false] (hshp _)
      obtain ⟨B, hB, hBs⟩ := tempMorph_some stills ntot k [true, false] (hshp _)
      have hAB : A.shape = B.shape := by
        rw [hAs, hBs, hsh false [false, false], hsh false [true, false]]
      obtain ⟨C, hC, hCs⟩ := quickBlend_some A B o0 w k hAB
      refine ⟨C, ?_, hCs.trans (hAs.trans (hsh false [false, false]))⟩
      have e1 : selectPath w k [o0, o1]
          ⟨initStore stills ntot, [Tok.val false, Tok.val false]⟩ =
          some ⟨updStore (initStore stills ntot) (k, [Tok.avg, Tok.val false]) C,
                [Tok.avg, Tok.val false]⟩ := by
        rw [selectPath_two,
          applyChange_window h1 h2 ((initStore_pair stills hk false false).trans hA)
            ((initStore_pair stills hk true false).trans hB) hC]
        show applyChange w k o1 1
          ⟨updStore (initStore stills ntot) (k, [Tok.avg, Tok.val false]) C,
           [Tok.avg, Tok.val false]⟩ = _
        rw [applyChange_pre hpre1]
      rw [synthFrame, hrep2, e1]
      exact updStore_self _ _ _
    · push_neg at h2
      by_cases h3 : (k : ℤ) < o1 - (w : ℤ) / 2
      · obtain ⟨F, hF, hFs⟩ := tempMorph_some stills ntot k [true, false] (hshp _)
        refine ⟨F, ?_, hFs.trans (hsh false [true, false])⟩
        have e1 : selectPath w k [o0, o1]
            ⟨initStore stills ntot, [Tok.val false, Tok.val false]⟩ =
            some ⟨initStore stills ntot, [Tok.val true, Tok.val false]⟩ := by
          rw [selectPath_two, applyChange_post h2]
          show applyChange w k o1 1
            ⟨initStore stills ntot, [Tok.val true, Tok.val false]⟩ = _
          rw [applyChange_pre h3]
        rw [synthFrame, hrep2, e1]
        exact (initStore_pair stills hk true false).trans hF
      · push_neg at h3
        by_cases h4 : (k : ℤ) < o1 + (w : ℤ) / 2
        · obtain ⟨A, hA, hAs⟩ := tempMorph_some stills ntot k [true, false] (hshp _)
          obtain ⟨B, hB, hBs⟩ := tempMorph_some stills ntot k [true, true] (hshp _)
          have hAB : A.shape = B.shape := by
            rw [hAs, hBs, hsh false [true, false], hsh false [true, true]]
          obtain ⟨C, hC, hCs⟩ := quickBlend_some A B o1 w k hAB
          refine ⟨C, ?_, hCs.trans (hAs.trans (hsh false [true, false]))⟩
          have e1 : selectPath w k [o0, o1]
              ⟨initStore stills ntot, [Tok.val false, Tok.val false]⟩ =
              some ⟨updStore (initStore stills ntot) (k, [Tok.val true, Tok.avg]) C,
                    [Tok.val true, Tok.avg]⟩ := by
            rw [selectPath_two, applyChange_post h2]
            show applyChange w k o1 1
              ⟨initStore stills ntot, [Tok.val true, Tok.val false]⟩ = _
            rw [applyChange_window h3 h4
              ((initStore_pair stills hk true false).trans hA)
              ((initStore_pair stills hk true true).trans hB) hC]
            rfl
          rw [synthFrame, hrep2, e1]
          exact updStore_self _ _ _
        · push_neg at h4
          obtain ⟨F, hF, hFs⟩ := tempMorph_some stills ntot k [true, true] (hshp _)
          refine ⟨F, ?_, hFs.trans (hsh false [true, true])⟩
          have e1 : selectPath w k [o0, o1]
              ⟨initStore stills ntot, [Tok.val false, Tok.val false]⟩ =
              some ⟨initStore stills ntot, [Tok.val true, Tok.val true]⟩ := by
            rw [selectPath_two, applyChange_post h2]
            show applyChange w k o1 1
              ⟨initStore stills ntot, [Tok.val true, Tok.val false]⟩ = _
            rw [applyChange_post h4]
            rfl
          rw [synthFrame, hrep2, e1]
          exact (initStore_pair stills hk true true).trans hF

theorem applyChange_window_missingB {w k : ℕ} {o : ℤ} {j : ℕ} {st : SelSt}
    (h1 : o - (w : ℤ) / 2 ≤ (k : ℤ)) (h2 : (k : ℤ) < o + (w : ℤ) / 2)
    (hB : st.store (k, st.toks.set j (Tok.val true)) = none) :
    applyChange w k o j st = none := by
  unfold applyChange
  rw [if_pos ⟨h1, h2⟩, hB]
  cases st.store (k, st.toks) <;> rfl

/-- C9 counterexample: with the valid `rand()` draws `r0 = 17/18`, `r1 = 0`
the two onset frames are 7 and 9, whose transition windows (half-window 2)
both contain frame 7; the synthesizer then tries to open an `avg` temp file
that was never saved and aborts — so a run with this seed does not produce a
valid raster for every frame. -/
theorem runFrame_crash_cex :
    (0 ≤ badRand.r0 ∧ badRand.r0 < 1 ∧ 0 ≤ badRand.r1 ∧ badRand.r1 < 1) ∧
    runOnsets badRand = [7, 9] ∧
    runFrame cStills badRand 7 = none := by
  have e0 : new_change_moment_frame 2 0 badRand.r0 16 = 7 := by
    norm_num [new_change_moment_frame, new_change_moment_prop,
      quick_change_time_section_proportion, pyTrunc, badRand]
  have e1 : new_change_moment_frame 2 1 badRand.r1 16 = 9 := by
    norm_num [new_change_moment_frame, new_change_moment_prop,
      quick_change_time_section_proportion, pyTrunc, badRand]
  have h09 : runOnsets badRand = [7, 9] := by
    rw [runOnsets, e0, e1]
  refine ⟨⟨by norm_num [badRand], by norm_num [badRand], by norm_num [badRand],
    by norm_num [badRand]⟩, h09, ?_⟩
  obtain ⟨A, hA, hAs⟩ :=
    tempMorph_some (planStills cStills badRand) 16 7 [false, false] rfl
  obtain ⟨B, hB, hBs⟩ :=
    tempMorph_some (planStills cStills badRand) 16 7 [true, false] rfl
  have hAB : A.shape = B.shape := by
    rw [hAs, hBs]
    rfl
  obtain ⟨C, hC, hCs⟩ := quickBlend_some A B 7 4 7 hAB
  have s1 : applyChange 4 7 7 0
      ⟨initStore (planStills cStills badRand) 16, [Tok.val false, Tok.val false]⟩ =
      some ⟨updStore (initStore (planStills cStills badRand) 16)
              (7, [Tok.avg, Tok.val false]) C, [Tok.avg, Tok.val false]⟩ :=
    applyChange_window (by decide) (by decide)
      ((initStore_pair _ (by norm_num) false false).trans hA)
      ((initStore_pair _ (by norm_num) true false).trans hB) hC
  have s2 : applyChange 4 7 9 1
      ⟨updStore (initStore (planStills cStills badRand) 16)
         (7, [Tok.avg, Tok.val false]) C, [Tok.avg, Tok.val false]⟩ = none :=
    applyChange_window_missingB (by decide) (by decide)
      ((@updStore_other (initStore (planStills cStills badRand) 16)
        (7, [Tok.avg, Tok.val false]) (7, [Tok.avg, Tok.val true])
        (by decide) C).trans rfl)
  have hsel : selectPath 4 7 [7, 9]
      ⟨initStore (planStills cStills badRand) 16, [Tok.val false, Tok.val false]⟩ =
      none := by
    rw [selectPath_two, s1]
    show applyChange 4 7 9 1
      ⟨updStore (initStore (planStills cStills badRand) 16)
         (7, [Tok.avg, Tok.val false]) C, [Tok.avg, Tok.val false]⟩ = none
    exact s2
  show (synthFrame (planStills cStills badRand) 2 16 4 (runOnsets badRand) 7).map
    resizeEven = none
  rw [h09, synthFrame,
    show List.replicate 2 (Tok.val false) = [Tok.val false, Tok.val false] from rfl,
    hsel]
  rfl

/-- C9 amended: the synthesizer is a deterministic function of the injected
random stream (equal seeds give byte-identical frame sequences), and whenever
the two sampled onsets keep the transition windows disjoint — which the
sampling margin at `total_frames = 16`, `feature_change_window_frames = 4`
does not itself guarantee — every frame of a run is produced and is a valid
raster of the same fixed even dimensions. -/
theorem runSeq_deterministic_and_valid (stills0 : Bool → List Bool → NpArr)
    (H W : ℕ) (hsh : ∀ b v, (stills0 b v).shape = (H, W, 3)) (r r' : RandSrc)
    (hgap : new_change_moment_frame 2 0 r.r0 16 + (4 : ℤ) / 2 ≤
            new_change_moment_frame 2 1 r.r1 16 - (4 : ℤ) / 2) :
    (r = r' → runSeq stills0 r = runSeq stills0 r') ∧
    ∀ k : ℕ, k ≤ 16 → ∃ F, runFrame stills0 r k = some F ∧
      F.shape = (evenDim H, evenDim W, 3) := by
  constructor
  · intro h
    rw [h]
  · intro k hk
    have hsh' : ∀ b v, ((planStills stills0 r) b v).shape = (H, W, 3) := by
      intro b v
      unfold planStills
      exact hsh _ _
    obtain ⟨G, hG, hGs⟩ := synthFrame_two_valid (planStills stills0 r) (H, W, 3)
      hsh' 16 4 (new_change_moment_frame 2 0 r.r0 16)
      (new_change_moment_frame 2 1 r.r1 16) hgap k hk
    have hcomp : G.s0 = H ∧ G.s1 = W ∧ G.s2 = 3 := by
      have h := hGs
      simp [NpArr.shape, Prod.ext_iff] at h
      exact h
    refine ⟨resizeEven G, ?_, ?_⟩
    · rw [runFrame,
        show runOnsets r = [new_change_moment_frame 2 0 r.r0 16,
          new_change_moment_frame 2 1 r.r1 16] from rfl, hG]
      rfl
    · show (evenDim G.s0, evenDim G.s1, G.s2) = (evenDim H, evenDim W, 3)
      rw [hcomp.1, hcomp.2.1, hcomp.2.2]

/-- Witness for the amended C9: the seed `goodRand` yields onsets 1 and 9,
whose windows are disjoint. -/
theorem runSeq_deterministic_and_valid_w :
    ((∀ b v, (cStills b v).shape = (2, 2, 3)) ∧
     new_change_moment_frame 2 0 goodRand.r0 16 + (4 : ℤ) / 2 ≤
       new_change_moment_frame 2 1 goodRand.r1 16 - (4 : ℤ) / 2) ∧
    ((goodRand = goodRand → runSeq cStills goodRand = runSeq cStills goodRand) ∧
     ∀ k : ℕ, k ≤ 16 → ∃ F, runFrame cStills goodRand k = some F ∧
       F.shape = (evenDim 2, evenDim 2, 3)) :=
  have hgap : new_change_moment_frame 2 0 goodRand.r0 16 + (4 : ℤ) / 2 ≤
      new_change_moment_frame 2 1 goodRand.r1 16 - (4 : ℤ) / 2 := by
    have e0 : new_change_moment_frame 2 0 goodRand.r0 16 = 1 := by
      norm_num [new_change_moment_frame, new_change_moment_prop,
        quick_change_time_section_proportion, pyTrunc, goodRand]
    have e1 : new_change_moment_frame 2 1 goodRand.r1 16 = 9 := by
      norm_num [new_change_moment_frame, new_change_moment_prop,
        quick_change_time_section_proportion, pyTrunc, goodRand]
    rw [e0, e1]
    decide
  ⟨⟨fun _ _ => rfl, hgap⟩,
    runSeq_deterministic_and_valid cStills 2 2 (fun _ _ => rfl)
      goodRand goodRand hgap⟩

/-! ## Lemmas about filename substitution -/

theorem occursAt_of_ge {pat s : List Char} (hpat : pat ≠ []) {i : ℕ}
    (h : s.length ≤ i) : occursAt pat s i = false := by
  unfold occursAt
  rw [List.drop_eq_nil_iff.mpr h]
  cases pat with
  | nil => exact absurd rfl hpat
  | cons p pt => rfl

theorem subAllGo_no_occ (pat repl : List Char) (hpat : pat ≠ []) :
    ∀ (fuel : ℕ) (s : List Char),
      (∀ i, i < s.length → occursAt pat s i = false) →
      subAllGo pat repl fuel s = s := by
  intro fuel
  induction fuel with
  | zero =>
    intro s _
    cases s <;> rfl
  | succ n ih =>
    intro s h
    cases s with
    | nil => rfl
    | cons c rest =>
      have h0 : pat.isPrefixOf (c :: rest) = false := by
        have := h 0 (by simp)
        simpa [occursAt] using this
      have hrest : ∀ i, i < rest.length → occursAt pat rest i = false := by
        intro i hilt
        have := h (i + 1) (by simpa using hilt)
        simpa [occursAt] using this
      simp [subAllGo, h0, ih rest hrest]

theorem subAllGo_splice (pat repl : List Char) (hpat : pat ≠ []) :
    ∀ (fuel : ℕ) (a b : List Char),
      (a ++ pat ++ b).length ≤ fuel →
      (∀ i, i < a.length → occursAt pat (a ++ pat ++ b) i = false) →
      (∀ i, i < b.length → occursAt pat b i = false) →
      subAllGo pat repl fuel (a ++ pat ++ b) = a ++ repl ++ b := by
  intro fuel
  induction fuel with
  | zero =>
    intro a b hlen _ _
    exfalso
    have hp : 0 < pat.length := List.length_pos.mpr hpat
    simp only [List.length_append] at hlen
    omega
  | succ n ih =>
    intro a b hlen hpre hb
    cases a with
    | nil =>
      obtain ⟨p, pt, rfl⟩ : ∃ p pt, pat = p :: pt := by
        cases pat with
        | nil => exact absurd rfl hpat
        | cons p pt => exact ⟨p, pt, rfl⟩
      simp only [List.nil_append, List.cons_append]
      have hpref : (p :: pt).isPrefixOf (p :: (pt ++ b)) = true := by
        rw [ List.isPrefixOf_iff_prefix]
        exact List.prefix_append _ _
      have hdrop : (p :: (pt ++ b)).drop (p :: pt).length = b := by
        rw [show p :: (pt ++ b) = (p :: pt) ++ b from rfl]
        exact List.drop_left _ _
      simp only [subAllGo, hpref, if_true, hdrop,
        subAllGo_no_occ (p :: pt) repl hpat n b hb]
    | cons c a' =>
      have h0 : pat.isPrefixOf (c :: (a' ++ pat ++ b)) = false := by
        have := hpre 0 (by simp)
        simpa [occursAt] using this
      have hpre' : ∀ i, i < a'.length → occursAt pat (a' ++ pat ++ b) i = false := by
        intro i hilt
        have := hpre (i + 1) (by simpa using hilt)
        simpa [occursAt] using this
      have hlen' : (a' ++ pat ++ b).length ≤ n := by
        simp only [List.length_append] at hlen ⊢
        simp at hlen
        omega
      have hgoal := ih a' b hlen' hpre' hb
      have heq : subAllGo pat repl (n + 1) ((c :: a') ++ pat ++ b) =
          if pat.isPrefixOf (c :: (a' ++ pat ++ b)) = true then
            repl ++ subAllGo pat repl n ((c :: (a' ++ pat ++ b)).drop pat.length)
          else c :: subAllGo pat repl n (a' ++ pat ++ b) := rfl
      rw [heq, h0]
      simp only [Bool.false_eq_true, if_false]
      rw [hgoal]
      rfl

theorem subAll_splice (pat repl a b : List Char) (hpat : pat ≠ [])
    (hpre : ∀ i, i < a.length → occursAt pat (a ++ pat ++ b) i = false)
    (hb : ∀ i, i < b.length → occursAt pat b i = false) :
    subAll pat repl (a ++ pat ++ b) = a ++ repl ++ b :=
  subAllGo_splice pat repl hpat (a ++ pat ++ b).length a b (le_refl _) hpre hb

/-- C10: frame selection and pairing substitute every occurrence of a
state-value token in the filename.  When the token occurs exactly once — as
its own delimited segment, with no other occurrence anywhere in the name —
the substitution yields exactly the intended name (that slot rewritten,
everything else untouched).  On an input violating the precondition — here
the feature value `no` also occurs inside the other feature's value
`nothing` — the substitution rewrites the unrelated segment too, and the
resulting name no longer corresponds to the intended state combination. -/
theorem pySub_token_behavior :
    (∀ (pat repl a b : List Char), pat ≠ [] →
      (∀ i, i < a.length → occursAt pat (a ++ pat ++ b) i = false) →
      (∀ i, i < b.length → occursAt pat b i = false) →
      subAll pat repl (a ++ pat ++ b) = a ++ repl ++ b) ∧
    pySub tokNo tokYes goodName = goodNameAfter ∧
    pySub tokNo tokYes badName = badNameActual ∧
    badNameActual ≠ badNameIntended := by
  refine ⟨fun pat repl a b hpat hpre hb => subAll_splice pat repl a b hpat hpre hb,
    ?_, ?_, ?_⟩
  · decide
  · decide
  · decide

/-- Witness for C10's universal part at a concrete well-behaved filename:
the token `no` sits between `Img01_morph3_` and `.jpg` and occurs nowhere
else, and the substitution rewrites exactly that slot. -/
theorem pySub_token_behavior_w :
    ((tokNo.data ≠ []) ∧
     (∀ i, i < ("Img01_morph3_").data.length →
        occursAt tokNo.data
          (("Img01_morph3_").data ++ tokNo.data ++ (".jpg").data) i = false) ∧
     (∀ i, i < (".jpg").data.length →
        occursAt tokNo.data (".jpg").data i = false)) ∧
    subAll tokNo.data tokYes.data
        (("Img01_morph3_").data ++ tokNo.data ++ (".jpg").data) =
      ("Img01_morph3_").data ++ tokYes.data ++ (".jpg").data :=
  ⟨⟨by decide, by decide, by decide⟩,
    pySub_token_behavior.1 tokNo.data tokYes.data ("Img01_morph3_").data
      (".jpg").data (by decide) (by decide) (by decide)⟩
